import Mathlib

/-!
# Karplus-Strong demo (`karplusstrongdemo.go`)

A shallow embedding of the goroutines and of the stream wiring of
`karplusstrongdemo.go`, and the properties proved about them.

* A channel of `float64` is seen through its history, the samples sent on it
  in order.  A stream either goes on forever or is closed after its last
  sample, as `pipe` and the streaming library do: it is a function
  `Nat → Option α`, `none` from the index at which the channel is closed and
  drained.  A receive from a closed channel yields the zero value, as in Go.
* A goroutine is run iteration by iteration of its loop; a run-time panic is
  the result `none`.
* The feedback loop is a network of deterministic stages, so the samples on
  its channels do not depend on the scheduling: `loopRun` computes them one
  sample at a time, and `KarplusStrongOut_wiring`, `KarplusStrongWiring_unique`
  show that they are the one solution of the stream equation that the
  statements of `KarplusStrong` write down.
* The sample type `α` is kept abstract where a property needs no more than
  the operations on samples.  Where the special values of `float64` matter,
  samples are of type `Sample`: a finite value, kept exact, `±Inf` or NaN.
* A panic in a started goroutine ends the process at a point the scheduler
  chooses; the construction of the stream graph carries that choice as a
  parameter.
* The stages of the library `gosound` (`ctx.Add`, `ctx.Mul`, `ctx.Const`,
  `ctx.Fork2`, `filter.RC`, `filter.Chebyshev`) are not part of this program.
  They are taken at the contracts the specification gives them; the filters
  are parameters.
-/

namespace KarplusStrongDemo

/-! ## Channel operations -/

/-- A channel operation performed by a goroutine, with the sample moved. -/
inductive Event (α : Type) where
  | send (v : α)
  | recv (v : α)
  deriving DecidableEq

/-- Whether an event is a send. -/
def Event.isSend {α : Type} : Event α → Bool
  | .send _ => true
  | .recv _ => false

/-- The samples sent, in order, in a trace of channel operations. -/
def sends {α : Type} : List (Event α) → List α
  | [] => []
  | .send v :: tr => v :: sends tr
  | .recv _ :: tr => sends tr

/-- The samples received, in order, in a trace of channel operations. -/
def recvs {α : Type} : List (Event α) → List α
  | [] => []
  | .send _ :: tr => recvs tr
  | .recv v :: tr => v :: recvs tr

/-- How many sends a trace holds before its first receive. -/
def leadingSends {α : Type} (tr : List (Event α)) : Nat :=
  (tr.takeWhile Event.isSend).length

/-- The Go receive `<-input` for the `i`-th receive on a channel whose history
is `input`: the `i`-th sample, or the zero value once the channel is closed
and drained. -/
def chanRecv {α : Type} [Zero α] (input : Nat → Option α) (i : Nat) : α :=
  (input i).getD 0

/-- A finite stream: the samples of `xs`, then the channel is closed. -/
def ofList {α : Type} (xs : List α) : Nat → Option α := fun i => xs[i]?

/-! ## `pipe` -/

/-- The function `pipe` (lines 11-16): `for x := range input { output <- x }`
then `close(output)`; sample `i` of the output is sample `i` of the input and
the output is closed when the input is. -/
def pipe {α : Type} (input : Nat → Option α) : Nat → Option α := fun i => input i

/-! ## `delay` -/

/-- The locals of the goroutine of `delay` (lines 23-24). -/
structure DelayState (α : Type) where
  buffer : List α
  pos : Nat
  deriving DecidableEq

/-- Lines 23-24: `buffer := make([]float64, length)`, `pos := uint(0)`. -/
def delayInit {α : Type} [Zero α] (length : Nat) : DelayState α :=
  { buffer := List.replicate length 0, pos := 0 }

/-- Line 27, `output <- buffer[pos]`: the sample sent; `none` is the run-time
panic of an index out of range. -/
def delaySend {α : Type} (s : DelayState α) : Option α := s.buffer[s.pos]?

/-- Lines 28-29, `buffer[pos] = <-input` with `x` the sample received, then
`pos = (pos + 1) % length`.  (`pos + 1 ≤ length` cannot wrap a `uint`.) -/
def delayRecv {α : Type} (length : Nat) (s : DelayState α) (x : α) : DelayState α :=
  { buffer := s.buffer.set s.pos x, pos := (s.pos + 1) % length }

/-- The goroutine of `delay` (lines 22-31) run for `n` iterations of its
`for` loop on the input history `input`: its locals and the trace of its
channel operations, in program order.  `none` when an iteration panics. -/
def delayLoop {α : Type} [Zero α] (length : Nat) (input : Nat → Option α) :
    Nat → Option (DelayState α × List (Event α))
  | 0 => some (delayInit length, [])
  | n + 1 =>
    match delayLoop length input n with
    | none => none
    | some (s, tr) =>
      match delaySend s with
      | none => none
      | some v =>
        let x := chanRecv input n
        some (delayRecv length s x, tr ++ [Event.send v, Event.recv x])

/-- The trace of the first `n` loop iterations of the goroutine of `delay`. -/
def delayTrace {α : Type} [Zero α] (length : Nat) (input : Nat → Option α) (n : Nat) :
    Option (List (Event α)) :=
  (delayLoop length input n).map Prod.snd

/-- The first `n` samples of the output stream of `delay(ctx, input, length)`. -/
def delayOutput {α : Type} [Zero α] (length : Nat) (input : Nat → Option α) (n : Nat) :
    Option (List α) :=
  (delayTrace length input n).map sends

/-- Sample `t` of the output stream of `delay(ctx, input, length)`. -/
def delayOut {α : Type} [Zero α] (length : Nat) (input : Nat → Option α) (t : Nat) :
    Option α :=
  match delayOutput length input (t + 1) with
  | none => none
  | some out => out[t]?

/-! ## Stages of the streaming library

The combinators of `gosound/sound` and `gosound/sound/filter` are not part of
this program; they are taken at the contracts the specification gives them. -/

/-- Modelled from the spec: a filter stage of the streaming library (`filter.RC`,
`filter.Chebyshev`), whose arithmetic is not in this program: a causal stage
with an internal state that turns each input sample into one output sample. -/
structure Filter (α : Type) where
  State : Type
  init : State
  step : State → α → State × α

/-- The state of a filter stage after it consumed the first `t` samples. -/
def Filter.stateAt {α : Type} (F : Filter α) (x : Nat → Option α) : Nat → F.State
  | 0 => F.init
  | t + 1 =>
    match x t with
    | some v => (F.step (F.stateAt x t) v).1
    | none => F.stateAt x t

/-- The output stream of a filter stage: one sample per input sample. -/
def Filter.run {α : Type} (F : Filter α) (x : Nat → Option α) : Nat → Option α :=
  fun t => (x t).map fun v => (F.step (F.stateAt x t) v).2

/-- Modelled from the spec: a first-order (RC-style) low-pass,
`y[n] = y[n-1] + a * (x[n] - y[n-1])`, at rest (`y[-1] = 0`) when it starts; the
library's `filter.RC` is not in this program. -/
def lowPass {α : Type} [Add α] [Sub α] [Mul α] [Zero α] (a : α) : Filter α :=
  { State := α, init := 0, step := fun s x => (s + a * (x - s), s + a * (x - s)) }

/-- Modelled from the spec: `ctx.Const(c)` of the streaming library, the unending
constant stream. -/
def ctxConst {α : Type} (c : α) : Nat → Option α := fun _ => some c

/-- Modelled from the spec: `ctx.Fork2` of the streaming library, two streams
that replay the samples of the input in the same order. -/
def ctxFork2 {α : Type} (input : Nat → Option α) : (Nat → Option α) × (Nat → Option α) :=
  (input, input)

/-- Modelled from the spec: one sample of the additive mix `ctx.Add` of the
streaming library; a stream that has ended contributes nothing and the
surviving stream passes through. -/
def addSample {α : Type} [Add α] : Option α → Option α → Option α
  | some x, some y => some (x + y)
  | some x, none => some x
  | none, some y => some y
  | none, none => none

/-- The mix `ctx.Add(input, feedback)` at a sample where the unending stream
`feedback` holds `fb`: the sample `addSample e (some fb)` holds. -/
def mix {α : Type} [Add α] (e : Option α) (fb : α) : α :=
  match e with
  | some x => x + fb
  | none => fb

/-- Modelled from the spec: `ctx.Add(a, b)` of the streaming library. -/
def ctxAdd {α : Type} [Add α] (a b : Nat → Option α) : Nat → Option α :=
  fun t => addSample (a t) (b t)

/-- Modelled from the spec: `ctx.Mul(a, b)` of the streaming library, the
sample-for-sample product.  The specification does not say when the product
ends if one operand ends first; `untilAll = false` ends it with the first
operand to end, `untilAll = true` lets the surviving operand pass through. -/
def ctxMul {α : Type} [Mul α] (untilAll : Bool) (a b : Nat → Option α) : Nat → Option α :=
  fun t =>
    match a t, b t with
    | some x, some y => some (x * y)
    | some x, none => if untilAll then some x else none
    | none, some y => if untilAll then some y else none
    | none, none => none

/-- The two responses of a library filter. -/
inductive Pass where
  | LowPass
  | HighPass
  deriving DecidableEq

/-! ## `KarplusStrong`: the samples -/

/-- The locals of the two stateful stages of the feedback loop: the delay line
and the damping filter. -/
structure LoopState (α : Type) (rc : Filter α) where
  delay : DelayState α
  filt : rc.State

/-- One sample around the feedback loop of `KarplusStrong` (lines 38-57), `e`
being what the excitation `input` holds at this sample (`none` once it has
ended), `rc` the stage `filter.RC(ctx, ·, filter.LowPass, cutoff)`:
the delay line sends `buffer[pos]` (line 47), the filter turns it into `f`
(line 51), `ctx.Mul` with `ctx.Const(decay)` into `f * decay` (line 54), `pipe`
copies it to `feedback` (line 57), `ctx.Add(input, feedback)` mixes it with the
excitation (line 41) and `ctx.Fork2` hands the mix `y` to the output and back to
the delay line (line 44).  `none` when the delay line panics. -/
def loopStep {α : Type} [Add α] [Mul α] (rc : Filter α) (delaySamples : Nat) (decay : α)
    (st : LoopState α rc) (e : Option α) : Option (LoopState α rc × α) :=
  match delaySend st.delay with
  | none => none
  | some d =>
    let r := rc.step st.filt d
    let feedback := r.2 * decay
    let y := mix e feedback
    some ({ delay := delayRecv delaySamples st.delay y, filt := r.1 }, y)

/-- The feedback loop of `KarplusStrong` run for `n` samples: the locals of its
stages and the samples of the output stream so far. -/
def loopRun {α : Type} [Add α] [Mul α] [Zero α] (rc : Filter α) (input : Nat → Option α)
    (delaySamples : Nat) (decay : α) : Nat → Option (LoopState α rc × List α)
  | 0 => some ({ delay := delayInit delaySamples, filt := rc.init }, [])
  | n + 1 =>
    match loopRun rc input delaySamples decay n with
    | none => none
    | some (st, out) =>
      match loopStep rc delaySamples decay st (input n) with
      | none => none
      | some (st', y) => some (st', out ++ [y])

/-- The first `n` samples of the output stream of
`KarplusStrong(ctx, input, delaySamples, cutoff, decay)`. -/
def KarplusStrongOutput {α : Type} [Add α] [Mul α] [Zero α] (rc : Filter α)
    (input : Nat → Option α) (delaySamples : Nat) (decay : α) (n : Nat) : Option (List α) :=
  (loopRun rc input delaySamples decay n).map Prod.snd

/-- Sample `t` of the output stream of `KarplusStrong`. -/
def KarplusStrongOut {α : Type} [Add α] [Mul α] [Zero α] (rc : Filter α)
    (input : Nat → Option α) (delaySamples : Nat) (decay : α) (t : Nat) : Option α :=
  match KarplusStrongOutput rc input delaySamples decay (t + 1) with
  | none => none
  | some out => out[t]?

/-- Sample `t` of the output of `KarplusStrong`, as a number (`0` if there is none). -/
def ksSample {α : Type} [Add α] [Mul α] [Zero α] (rc : Filter α)
    (input : Nat → Option α) (delaySamples : Nat) (decay : α) (t : Nat) : α :=
  (KarplusStrongOut rc input delaySamples decay t).getD 0

/-- The stream equation of the wiring of `KarplusStrong` (lines 38-59), `output`
being the stream that `ctx.Add` writes: the copy forked off it goes through
`delay`, `filter.RC` and `ctx.Mul` with `ctx.Const(decay)`, `pipe` copies the
result to `feedback`, and `ctx.Add(input, feedback)` is the stream again. -/
def KarplusStrongWiring {α : Type} [Add α] [Mul α] [Zero α] (rc : Filter α) (untilAll : Bool)
    (input : Nat → Option α) (delaySamples : Nat) (decay : α) (output : Nat → Option α) :
    Nat → Option α :=
  let outputCopy := (ctxFork2 output).2
  let outputCopy := delayOut delaySamples outputCopy
  let outputCopy := rc.run outputCopy
  let outputCopy := ctxMul untilAll outputCopy (ctxConst decay)
  let feedback := pipe outputCopy
  ctxAdd input feedback

/-- The peak amplitude of a signal over period `k`, the samples
`k * L .. k * L + L - 1`. -/
def peak {α : Type} [LinearOrderedRing α] (y : Nat → α) (L k : Nat) : α :=
  ((List.range L).map fun i => |y (k * L + i)|).foldr max 0

/-! ## `FilterFormant` -/

/-- The function `FilterFormant` (lines 81-90); `Chebyshev pass cutoff` is the
stage `filter.Chebyshev(ctx, ·, pass, cutoff, 0.5, 2)` and `untilAll` the end
policy of `ctx.Mul`. -/
def FilterFormant {α : Type} [Add α] [Sub α] [Mul α] [Div α] [OfScientific α]
    (Chebyshev : Pass → α → Filter α) (untilAll : Bool)
    (input : Nat → Option α) (centre q gain : α) : Nat → Option α :=
  let lowerCutoff := (centre - (centre / q)) / 0.772
  let upperCutoff := (centre + (centre / q)) / 1.29
  let forked := ctxFork2 input
  let input := forked.1
  let formant := forked.2
  let formant := (Chebyshev Pass.HighPass lowerCutoff).run formant
  let formant := (Chebyshev Pass.LowPass upperCutoff).run formant
  let formant := ctxMul untilAll formant (ctxConst (gain - 1.0))
  ctxAdd input formant

/-- The stream `formant` of `FilterFormant` after line 87: the band-limited
copy of the input, before it is scaled by `gain - 1`. -/
def formantBand {α : Type} [Add α] [Sub α] [Div α] [OfScientific α]
    (Chebyshev : Pass → α → Filter α) (input : Nat → Option α) (centre q : α) :
    Nat → Option α :=
  let lowerCutoff := (centre - (centre / q)) / 0.772
  let upperCutoff := (centre + (centre / q)) / 1.29
  let formant := (ctxFork2 input).2
  let formant := (Chebyshev Pass.HighPass lowerCutoff).run formant
  (Chebyshev Pass.LowPass upperCutoff).run formant

/-! ## Samples of type `float64` -/

/-- A `float64` sample up to rounding and the sign of zero: a finite value,
kept exact, an infinity or NaN. -/
inductive Sample where
  | fin (v : Rat)
  | inf (negative : Bool)
  | nan
  deriving DecidableEq

/-- The sum of two `float64` samples: `Inf + (-Inf)` and every sum with NaN are
NaN. -/
def Sample.add : Sample → Sample → Sample
  | .fin a, .fin b => .fin (a + b)
  | .fin _, .inf s => .inf s
  | .inf s, .fin _ => .inf s
  | .inf s, .inf r => if s = r then .inf s else .nan
  | _, _ => .nan

/-- The opposite of a `float64` sample. -/
def Sample.neg : Sample → Sample
  | .fin a => .fin (-a)
  | .inf s => .inf (!s)
  | .nan => .nan

/-- The product of two `float64` samples: `0 * Inf` and every product with NaN
are NaN. -/
def Sample.mul : Sample → Sample → Sample
  | .fin a, .fin b => .fin (a * b)
  | .fin a, .inf s => if a = 0 then .nan else .inf (if a < 0 then !s else s)
  | .inf s, .fin b => if b = 0 then .nan else .inf (if b < 0 then !s else s)
  | .inf s, .inf r => .inf (s != r)
  | _, _ => .nan

/-- The quotient of two `float64` samples: a non-zero value over `0` is an
infinity, `0 / 0`, `Inf / Inf` and every quotient with NaN are NaN. -/
def Sample.div : Sample → Sample → Sample
  | .fin a, .fin b =>
    if b = 0 then (if a = 0 then .nan else .inf (decide (a < 0))) else .fin (a / b)
  | .fin _, .inf _ => .fin 0
  | .inf s, .fin b => .inf (if b < 0 then !s else s)
  | .inf _, .inf _ => .nan
  | _, _ => .nan

instance : Zero Sample := ⟨Sample.fin 0⟩

instance : Add Sample := ⟨Sample.add⟩

instance : Neg Sample := ⟨Sample.neg⟩

instance : Sub Sample := ⟨fun a b => Sample.add a (Sample.neg b)⟩

instance : Mul Sample := ⟨Sample.mul⟩

instance : Div Sample := ⟨Sample.div⟩

instance : OfScientific Sample := ⟨fun m s e => Sample.fin (OfScientific.ofScientific m s e)⟩

/-! ## Construction of the stream graph -/

/-- A goroutine of the stream graph, with the channels it is connected to
(channels are numbered in the order they are made). -/
inductive Stage (α : Type) where
  | add (in1 in2 out : Nat)
  | fork2 (inp out1 out2 : Nat)
  | delay (inp out length : Nat)
  | rc (inp out : Nat) (pass : Pass) (cutoff : α)
  | const (out : Nat) (value : α)
  | mul (in1 in2 out : Nat)
  | pipe (inp out : Nat)
  deriving DecidableEq

/-- The stream graph under construction, seen from the goroutine that builds
it: how many channels were made, the goroutines started so far in the order
they were started, and whether a started goroutine has a panic under way.  An
unrecovered panic ends the process; nothing orders it with the statements of
the builder, so `panicIn = some k` lets the builder run `k` more statements
before the process ends, `k` being the scheduler's choice.  `ended` says that
the process has ended: no further statement has an effect. -/
structure Net (α : Type) where
  chans : Nat
  started : List (Stage α)
  panicIn : Option Nat
  ended : Bool
  deriving DecidableEq

/-- The builder is about to run a statement: a panic under way ends the process
first when its delay has run out. -/
def schedule {α : Type} (net : Net α) : Net α :=
  match net.panicIn with
  | none => net
  | some 0 => { net with ended := true }
  | some (k + 1) => { net with panicIn := some k }

/-- The statement `make(chan float64, ctx.StreamBufferSize)`: a fresh channel. -/
def makeChan {α : Type} (net : Net α) : Nat × Net α :=
  let net := schedule net
  if net.ended then (net.chans, net) else (net.chans, { net with chans := net.chans + 1 })

/-- The statement `go f(...)`: the goroutine is started. -/
def goStage {α : Type} (st : Stage α) (net : Net α) : Net α :=
  let net := schedule net
  if net.ended then net else { net with started := net.started ++ [st] }

/-- Modelled from the spec: the constructor `ctx.Add` of the streaming library
makes its output channel and starts its stage. -/
def newAdd {α : Type} (in1 in2 : Nat) (net : Net α) : Nat × Net α :=
  let r := makeChan net
  (r.1, goStage (Stage.add in1 in2 r.1) r.2)

/-- Modelled from the spec: the constructor `ctx.Fork2` of the streaming library
makes its two output channels and starts its stage. -/
def newFork2 {α : Type} (inp : Nat) (net : Net α) : (Nat × Nat) × Net α :=
  let r1 := makeChan net
  let r2 := makeChan r1.2
  ((r1.1, r2.1), goStage (Stage.fork2 inp r1.1 r2.1) r2.2)

/-- Modelled from the spec: the constructor `filter.RC` of the streaming library
makes its output channel and starts its stage. -/
def newRC {α : Type} (inp : Nat) (pass : Pass) (cutoff : α) (net : Net α) : Nat × Net α :=
  let r := makeChan net
  (r.1, goStage (Stage.rc inp r.1 pass cutoff) r.2)

/-- Modelled from the spec: the constructor `ctx.Const` of the streaming library
makes its output channel and starts its stage. -/
def newConst {α : Type} (value : α) (net : Net α) : Nat × Net α :=
  let r := makeChan net
  (r.1, goStage (Stage.const r.1 value) r.2)

/-- Modelled from the spec: the constructor `ctx.Mul` of the streaming library
makes its output channel and starts its stage. -/
def newMul {α : Type} (in1 in2 : Nat) (net : Net α) : Nat × Net α :=
  let r := makeChan net
  (r.1, goStage (Stage.mul in1 in2 r.1) r.2)

/-- The function `delay` (lines 19-34): it makes the output channel (line 20),
starts the goroutine (line 22) and returns the channel (line 33); no statement
of it looks at `length`.  The goroutine runs concurrently: when its first
statements panic (line 27 on the fresh locals of lines 23-24), the process
ends `sched` statements of the builder later. -/
def delay {α : Type} [Zero α] (sched : Nat) (input : Nat) (length : Nat) (net : Net α) :
    Nat × Net α :=
  let r := makeChan net
  let net := goStage (Stage.delay input r.1 length) r.2
  let net :=
    if net.ended then net
    else
      match delaySend (delayInit length : DelayState α), net.panicIn with
      | some _, _ => net
      | none, none => { net with panicIn := some sched }
      | none, some k => { net with panicIn := some (min k sched) }
  (r.1, net)

/-- The function `KarplusStrong` (lines 37-60): the channel it returns and the
stream graph it has built; no statement of it looks at `delaySamples`, `cutoff`
or `decay`.  `sched` is the scheduler's choice for the goroutine of `delay`. -/
def KarplusStrong {α : Type} [Zero α] (sched : Nat) (input : Nat) (delaySamples : Nat)
    (cutoff : α) (decay : α) (net : Net α) : Nat × Net α :=
  let r := makeChan net
  let feedback := r.1
  let r := newAdd input feedback r.2
  let output := r.1
  let f := newFork2 output r.2
  let output := f.1.1
  let outputCopy := f.1.2
  let r := delay sched outputCopy delaySamples f.2
  let outputCopy := r.1
  let r := newRC outputCopy Pass.LowPass cutoff r.2
  let outputCopy := r.1
  let c := newConst decay r.2
  let r := newMul outputCopy c.1 c.2
  let outputCopy := r.1
  (output, goStage (Stage.pipe outputCopy feedback) r.2)

/-- The stream graph of a caller that holds one stream, channel `0`, and has
started nothing of the loop. -/
def callerNet (α : Type) : Net α :=
  { chans := 1, started := [], panicIn := none, ended := false }

/-- The `L`-sample shift seeded with silence, as the contract of the delay
line words it: sample `m` is `0` for `m < L` and otherwise the input sample
accepted at time `m - L`. -/
def shiftSpec {α : Type} [Zero α] (length : Nat) (input : Nat → Option α) (m : Nat) : α :=
  if m < length then 0 else chanRecv input (m - length)

/-! ## Lemmas on traces -/

theorem sends_append {α : Type} (a b : List (Event α)) :
    sends (a ++ b) = sends a ++ sends b := by
  induction a with
  | nil => rfl
  | cons e a ih => cases e <;> simp [sends, ih]

theorem recvs_append {α : Type} (a b : List (Event α)) :
    recvs (a ++ b) = recvs a ++ recvs b := by
  induction a with
  | nil => rfl
  | cons e a ih => cases e <;> simp [recvs, ih]

theorem mod_ne_of_between {L n m : Nat} (h1 : n < m) (h2 : m < n + L) : m % L ≠ n % L := by
  intro h
  have h3 : (m - n) % L = 0 := Nat.sub_mod_eq_zero_of_mod_eq h
  have h4 : (m - n) % L = m - n := Nat.mod_eq_of_lt (by omega)
  omega

/-- The loop invariant of the goroutine of `delay`: after `n` iterations the
circular buffer holds the next `L` samples of the shifted stream, the cursor
is `n % L`, and the trace is `n` send/receive pairs. -/
theorem delayLoop_inv {α : Type} [Zero α] (L : Nat) (hL : 0 < L) (input : Nat → Option α)
    (n : Nat) :
    ∃ s tr, delayLoop L input n = some (s, tr) ∧ s.buffer.length = L ∧ s.pos = n % L ∧
      (∀ m, n ≤ m → m < n + L → s.buffer[m % L]? = some (shiftSpec L input m)) ∧
      sends tr = (List.range n).map (shiftSpec L input) ∧
      recvs tr = (List.range n).map (chanRecv input) ∧
      tr.length = 2 * n ∧
      (∀ k, k < n → tr[2 * k]? = some (Event.send (shiftSpec L input k)) ∧
        tr[2 * k + 1]? = some (Event.recv (chanRecv input k))) := by
  induction n with
  | zero =>
    refine ⟨delayInit L, [], rfl, by simp [delayInit], by simp [delayInit], ?_, rfl, rfl,
      rfl, ?_⟩
    · intro m _ hm
      have hm' : m < L := by omega
      simp [delayInit, shiftSpec, hm', Nat.mod_eq_of_lt hm', List.getElem?_replicate]
    · intro k hk; omega
  | succ n ih =>
    obtain ⟨s, tr, hrun, hlen, hpos, hbuf, hs, hr, htl, hev⟩ := ih
    have hsend : delaySend s = some (shiftSpec L input n) := by
      unfold delaySend
      rw [hpos]
      exact hbuf n (le_refl n) (by omega)
    refine ⟨delayRecv L s (chanRecv input n),
      tr ++ [Event.send (shiftSpec L input n), Event.recv (chanRecv input n)], ?_, ?_, ?_, ?_,
      ?_, ?_, ?_, ?_⟩
    · simp [delayLoop, hrun, hsend]
    · simp [delayRecv, hlen]
    · simp [delayRecv, hpos]
    · intro m h1 h2
      have hlt : n % L < s.buffer.length := by rw [hlen]; exact Nat.mod_lt _ hL
      by_cases hm : m = n + L
      · subst hm
        have hx : shiftSpec L input (n + L) = chanRecv input n := by
          simp [shiftSpec]
        simp only [delayRecv, hpos, Nat.add_mod_right, hx]
        rw [List.getElem?_set_self hlt]
      · have hne : n % L ≠ m % L := fun h => mod_ne_of_between (by omega) (by omega) h.symm
        simp only [delayRecv, hpos]
        rw [List.getElem?_set_ne hne]
        exact hbuf m (by omega) (by omega)
    · simp [sends_append, sends, hs, List.range_succ]
    · simp [recvs_append, recvs, hr, List.range_succ]
    · simp [htl]; omega
    · intro k hk
      by_cases hkn : k < n
      · obtain ⟨h1, h2⟩ := hev k hkn
        constructor
        · rw [List.getElem?_append_left (by omega)]; exact h1
        · rw [List.getElem?_append_left (by omega)]; exact h2
      · have hk' : k = n := by omega
        subst hk'
        constructor
        · rw [List.getElem?_append_right (by omega)]; simp [htl]
        · rw [List.getElem?_append_right (by omega)]
          have : 2 * k + 1 - tr.length = 1 := by omega
          simp [this]

theorem delayOutput_eq {α : Type} [Zero α] (L : Nat) (hL : 0 < L) (input : Nat → Option α)
    (n : Nat) : delayOutput L input n = some ((List.range n).map (shiftSpec L input)) := by
  obtain ⟨s, tr, hrun, -, -, -, hs, -⟩ := delayLoop_inv L hL input n
  simp [delayOutput, delayTrace, hrun, hs]

theorem delayOut_eq {α : Type} [Zero α] (L : Nat) (hL : 0 < L) (input : Nat → Option α)
    (t : Nat) : delayOut L input t = some (shiftSpec L input t) := by
  simp [delayOut, delayOutput_eq L hL input (t + 1)]

theorem addSample_some {α : Type} [Add α] (e : Option α) (fb : α) :
    addSample e (some fb) = some (mix e fb) := by
  cases e <;> rfl

/-- The invariant of the feedback loop: after `n` samples the delay line is in
the state its goroutine reaches on the output stream itself, the filter is in
the state it reaches on the delayed output, and every sample so far is the
mix of the excitation with the attenuated, filtered, delayed output. -/
theorem loopRun_inv {α : Type} [Add α] [Mul α] [Zero α] (rc : Filter α)
    (input : Nat → Option α) (L : Nat) (hL : 0 < L) (decay : α) (n : Nat) :
    ∃ st tr,
      loopRun rc input L decay n
        = some (st, (List.range n).map (ksSample rc input L decay)) ∧
      delayLoop L (fun i => some (ksSample rc input L decay i)) n = some (st.delay, tr) ∧
      st.filt = rc.stateAt
        (fun t => some (shiftSpec L (fun i => some (ksSample rc input L decay i)) t)) n ∧
      ∀ t, t < n → ksSample rc input L decay t
        = mix (input t) ((rc.step (rc.stateAt
            (fun t => some (shiftSpec L (fun i => some (ksSample rc input L decay i)) t)) t)
            (shiftSpec L (fun i => some (ksSample rc input L decay i)) t)).2 * decay) := by
  induction n with
  | zero => exact ⟨_, [], rfl, rfl, rfl, fun t ht => absurd ht (Nat.not_lt_zero t)⟩
  | succ n ih =>
    obtain ⟨st, tr, hrun, hdel, hfilt, heq⟩ := ih
    obtain ⟨s, tr', hrun', -, hpos, hbuf, -⟩ :=
      delayLoop_inv L hL (fun i => some (ksSample rc input L decay i)) n
    rw [hdel] at hrun'
    have hs : s = st.delay := by
      have := Option.some.inj hrun'
      exact (congrArg Prod.fst this).symm
    subst hs
    have hsend : delaySend st.delay
        = some (shiftSpec L (fun i => some (ksSample rc input L decay i)) n) := by
      unfold delaySend
      rw [hpos]
      exact hbuf n (le_refl n) (by omega)
    have hnext : loopRun rc input L decay (n + 1)
        = some ({ delay := delayRecv L st.delay (mix (input n) ((rc.step st.filt
              (shiftSpec L (fun i => some (ksSample rc input L decay i)) n)).2 * decay)),
                  filt := (rc.step st.filt
              (shiftSpec L (fun i => some (ksSample rc input L decay i)) n)).1 },
            (List.range n).map (ksSample rc input L decay) ++
              [mix (input n) ((rc.step st.filt
              (shiftSpec L (fun i => some (ksSample rc input L decay i)) n)).2 * decay)]) := by
      simp [loopRun, hrun, loopStep, hsend]
    have hy : ksSample rc input L decay n = mix (input n) ((rc.step st.filt
        (shiftSpec L (fun i => some (ksSample rc input L decay i)) n)).2 * decay) := by
      simp [ksSample, KarplusStrongOut, KarplusStrongOutput, hnext]
    refine ⟨{ delay := delayRecv L st.delay (ksSample rc input L decay n),
              filt := (rc.step st.filt
                (shiftSpec L (fun i => some (ksSample rc input L decay i)) n)).1 },
      tr ++ [Event.send (shiftSpec L (fun i => some (ksSample rc input L decay i)) n),
        Event.recv (ksSample rc input L decay n)], ?_, ?_, ?_, ?_⟩
    · rw [hnext, List.range_succ, List.map_append, ← hy]
      rfl
    · simp only [delayLoop, hdel, hsend, chanRecv, Option.getD_some, ← hy]
    · simp only [Filter.stateAt, hfilt]
    · intro t ht
      by_cases htn : t < n
      · exact heq t htn
      · have : t = n := by omega
        subst this
        rw [hy, hfilt]

theorem KarplusStrongOut_eq {α : Type} [Add α] [Mul α] [Zero α] (rc : Filter α)
    (input : Nat → Option α) (L : Nat) (hL : 0 < L) (decay : α) (t : Nat) :
    KarplusStrongOut rc input L decay t = some (ksSample rc input L decay t) := by
  obtain ⟨st, tr, hrun, -⟩ := loopRun_inv rc input L hL decay (t + 1)
  simp [KarplusStrongOut, KarplusStrongOutput, hrun]

theorem KarplusStrongOutput_eq {α : Type} [Add α] [Mul α] [Zero α] (rc : Filter α)
    (input : Nat → Option α) (L : Nat) (hL : 0 < L) (decay : α) (n : Nat) :
    KarplusStrongOutput rc input L decay n
      = some ((List.range n).map (ksSample rc input L decay)) := by
  obtain ⟨st, tr, hrun, -⟩ := loopRun_inv rc input L hL decay n
  simp [KarplusStrongOutput, hrun]

theorem Filter.stateAt_congr {α : Type} (F : Filter α) (x z : Nat → Option α) (t : Nat)
    (h : ∀ i, i < t → x i = z i) : F.stateAt x t = F.stateAt z t := by
  induction t with
  | zero => rfl
  | succ t ih =>
    have h1 := ih (fun i hi => h i (Nat.lt_succ_of_lt hi))
    simp only [Filter.stateAt, h t (Nat.lt_succ_self t), h1]

theorem Filter.run_congr {α : Type} (F : Filter α) (x z : Nat → Option α) (t : Nat)
    (h : ∀ i, i ≤ t → x i = z i) : F.run x t = F.run z t := by
  simp only [Filter.run, h t (le_refl t),
    Filter.stateAt_congr F x z t (fun i hi => h i (Nat.le_of_lt hi))]

/-- The samples the loop produces solve the stream equation of the wiring. -/
theorem KarplusStrongOut_wiring {α : Type} [Add α] [Mul α] [Zero α] (rc : Filter α)
    (untilAll : Bool) (input : Nat → Option α) (L : Nat) (hL : 0 < L) (decay : α) :
    KarplusStrongWiring rc untilAll input L decay (KarplusStrongOut rc input L decay)
      = KarplusStrongOut rc input L decay := by
  funext t
  obtain ⟨st, tr, -, -, -, heq⟩ := loopRun_inv rc input L hL decay (t + 1)
  have hK : KarplusStrongOut rc input L decay
      = fun i => some (ksSample rc input L decay i) :=
    funext fun i => KarplusStrongOut_eq rc input L hL decay i
  have hD : delayOut L (fun i => some (ksSample rc input L decay i))
      = fun t => some (shiftSpec L (fun i => some (ksSample rc input L decay i)) t) :=
    funext fun t => delayOut_eq L hL _ t
  rw [hK]
  simp only [KarplusStrongWiring, ctxFork2, hD, ctxAdd, pipe, ctxMul, ctxConst, Filter.run,
    Option.map_some', addSample_some, heq t (Nat.lt_succ_self t)]

/-- The stream equation of the wiring has one solution only. -/
theorem KarplusStrongWiring_unique {α : Type} [Add α] [Mul α] [Zero α] (rc : Filter α)
    (untilAll : Bool) (input : Nat → Option α) (L : Nat) (hL : 0 < L) (decay : α)
    (y : Nat → Option α) (hy : KarplusStrongWiring rc untilAll input L decay y = y) :
    y = KarplusStrongOut rc input L decay := by
  have hz := KarplusStrongOut_wiring rc untilAll input L hL decay
  have key : ∀ t, ∀ i, i < t → y i = KarplusStrongOut rc input L decay i := by
    intro t
    induction t with
    | zero => intro i hi; omega
    | succ t ih =>
      intro i hi
      by_cases hit : i < t
      · exact ih i hit
      · have hi' : i = t := by omega
        subst hi'
        have hd : ∀ j, j ≤ i → delayOut L y j
            = delayOut L (KarplusStrongOut rc input L decay) j := by
          intro j hj
          rw [delayOut_eq L hL, delayOut_eq L hL]
          by_cases hjL : j < L
          · simp [shiftSpec, hjL]
          · simp [shiftSpec, hjL, chanRecv, ih (j - L) (by omega)]
        have hr := Filter.run_congr rc _ _ i hd
        rw [← hy, ← hz]
        simp only [KarplusStrongWiring, ctxFork2, ctxAdd, pipe, ctxMul, hr]
  funext t
  exact key (t + 1) t (Nat.lt_succ_self t)

/-- A filter at rest that is fed silence stays at rest. -/
theorem Filter.stateAt_rest {α : Type} [Zero α] (F : Filter α) (x : Nat → Option α)
    (hrest : F.step F.init 0 = (F.init, 0)) (t : Nat) (hx : ∀ i, i < t → x i = some 0) :
    F.stateAt x t = F.init := by
  induction t with
  | zero => rfl
  | succ t ih =>
    have h1 := ih (fun i hi => hx i (Nat.lt_succ_of_lt hi))
    simp [Filter.stateAt, hx t (Nat.lt_succ_self t), h1, hrest]

theorem lowPass_loop {α : Type} [Ring α] (a d : α) (e : Nat → Option α) (L : Nat)
    (hL : 0 < L) :
    ∃ s : Nat → α, s 0 = 0 ∧
      (∀ t, s (t + 1) = s t + a *
        ((if t < L then 0 else ksSample (lowPass a) e L d (t - L)) - s t)) ∧
      ∀ t, ksSample (lowPass a) e L d t = mix (e t) (s (t + 1) * d) := by
  refine ⟨fun t => (lowPass a).stateAt
    (fun t => some (shiftSpec L (fun i => some (ksSample (lowPass a) e L d i)) t)) t,
    rfl, ?_, ?_⟩
  · intro t
    simp only [Filter.stateAt, lowPass, shiftSpec, chanRecv, Option.getD_some]
  · intro t
    obtain ⟨st, tr, -, -, -, heq⟩ := loopRun_inv (lowPass a) e L hL d (t + 1)
    rw [heq t (Nat.lt_succ_self t)]
    rfl

theorem foldr_max_nonneg {α : Type} [LinearOrderedRing α] (l : List α) :
    0 ≤ l.foldr max 0 := by
  induction l with
  | nil => simp
  | cons x l ih => simp [List.foldr, ih]

theorem le_foldr_max {α : Type} [LinearOrderedRing α] (l : List α) (x : α) (hx : x ∈ l) :
    x ≤ l.foldr max 0 := by
  induction l with
  | nil => simp at hx
  | cons z l ih =>
    rcases List.mem_cons.mp hx with h | h
    · simp [List.foldr, h]
    · simp [List.foldr, ih h]

theorem foldr_max_le {α : Type} [LinearOrderedRing α] (l : List α) (B : α) (hB : 0 ≤ B)
    (h : ∀ x, x ∈ l → x ≤ B) : l.foldr max 0 ≤ B := by
  induction l with
  | nil => simpa using hB
  | cons z l ih =>
    simp only [List.foldr, max_le_iff]
    exact ⟨h z (List.mem_cons_self z l), ih (fun x hx => h x (List.mem_cons_of_mem z hx))⟩

theorem peak_nonneg {α : Type} [LinearOrderedRing α] (y : Nat → α) (L k : Nat) :
    0 ≤ peak y L k := foldr_max_nonneg _

theorem le_peak {α : Type} [LinearOrderedRing α] (y : Nat → α) (L k i : Nat) (hi : i < L) :
    |y (k * L + i)| ≤ peak y L k := by
  apply le_foldr_max
  exact List.mem_map.mpr ⟨i, List.mem_range.mpr hi, rfl⟩

theorem peak_le {α : Type} [LinearOrderedRing α] (y : Nat → α) (L k : Nat) (B : α)
    (hB : 0 ≤ B) (h : ∀ i, i < L → |y (k * L + i)| ≤ B) : peak y L k ≤ B := by
  apply foldr_max_le _ _ hB
  intro x hx
  obtain ⟨i, hi, rfl⟩ := List.mem_map.mp hx
  exact h i (List.mem_range.mp hi)

theorem lowPass_abs_step {α : Type} [LinearOrderedField α] (a d : α) (ha0 : 0 < a)
    (ha1 : a ≤ 1) (hd0 : 0 < d) (M x v : α) (hx : d * |x| ≤ M) (hv : |v| ≤ M) :
    d * |x + a * (v - x)| ≤ (1 - a + a * d) * M := by
  have h1 : |x + a * (v - x)| ≤ (1 - a) * |x| + a * |v| := by
    have e1 : x + a * (v - x) = (1 - a) * x + a * v := by ring
    rw [e1]
    calc |(1 - a) * x + a * v| ≤ |(1 - a) * x| + |a * v| := abs_add _ _
      _ = (1 - a) * |x| + a * |v| := by
        rw [abs_mul, abs_mul, abs_of_nonneg (sub_nonneg.mpr ha1), abs_of_nonneg ha0.le]
  have h2 : d * |x + a * (v - x)| ≤ d * ((1 - a) * |x| + a * |v|) :=
    mul_le_mul_of_nonneg_left h1 hd0.le
  have h3 : (1 - a) * (d * |x|) ≤ (1 - a) * M :=
    mul_le_mul_of_nonneg_left hx (sub_nonneg.mpr ha1)
  have h4 : a * d * |v| ≤ a * d * M :=
    mul_le_mul_of_nonneg_left hv (mul_pos ha0 hd0).le
  calc d * |x + a * (v - x)| ≤ d * ((1 - a) * |x| + a * |v|) := h2
    _ = (1 - a) * (d * |x|) + a * d * |v| := by ring
    _ ≤ (1 - a) * M + a * d * M := add_le_add h3 h4
    _ = (1 - a + a * d) * M := by ring

theorem peak_contract {α : Type} [LinearOrderedField α] (a d : α) (ha0 : 0 < a) (ha1 : a ≤ 1)
    (hd0 : 0 < d) (hd1 : d < 1) (L : Nat) (hL : 0 < L) (y s : Nat → α) (hs0 : s 0 = 0)
    (hs : ∀ t, s (t + 1) = s t + a * ((if t < L then 0 else y (t - L)) - s t))
    (hy : ∀ t, L ≤ t → y t = s (t + 1) * d) (k : Nat) :
    peak y L (k + 1) ≤ (1 - a + a * d) * peak y L k := by
  have hM : 0 ≤ peak y L k := peak_nonneg y L k
  have hc1 : 1 - a + a * d ≤ 1 := by nlinarith
  have hc0 : 0 ≤ 1 - a + a * d := by nlinarith
  have hcM : (1 - a + a * d) * peak y L k ≤ peak y L k := by nlinarith
  have hsL : ∀ t, t ≤ L → s t = 0 := by
    intro t
    induction t with
    | zero => intro _; exact hs0
    | succ t ih =>
      intro ht
      have h1 : t < L := by omega
      rw [hs t, ih (by omega), if_pos h1]
      ring
  have hbase : d * |s ((k + 1) * L)| ≤ peak y L k := by
    cases k with
    | zero =>
      have : s ((0 + 1) * L) = 0 := hsL _ (by simp)
      rw [this]
      simpa using hM
    | succ k =>
      have hge : L ≤ (k + 1) * L + (L - 1) := by
        have : L ≤ (k + 1) * L := Nat.le_mul_of_pos_left L (Nat.succ_pos k)
        omega
      have hidx : (k + 1 + 1) * L = (k + 1) * L + (L - 1) + 1 := by
        have : (k + 1 + 1) * L = (k + 1) * L + L := by ring
        omega
      have h1 := hy _ hge
      have h2 := le_peak y L (k + 1) (L - 1) (by omega)
      rw [h1, ← hidx, abs_mul, abs_of_pos hd0, mul_comm] at h2
      exact h2
  have hstep : ∀ j, j < L →
      d * |s ((k + 1) * L + j + 1)| ≤ (1 - a + a * d) * peak y L k := by
    intro j
    induction j with
    | zero =>
      intro _
      have hnl : ¬ (k + 1) * L < L := by
        have : L ≤ (k + 1) * L := Nat.le_mul_of_pos_left L (Nat.succ_pos k)
        omega
      have hsub : (k + 1) * L - L = k * L + 0 := by
        have : (k + 1) * L = k * L + L := by ring
        omega
      rw [Nat.add_zero, hs, if_neg hnl, hsub]
      exact lowPass_abs_step a d ha0 ha1 hd0 _ _ _ hbase (le_peak y L k 0 hL)
    | succ j ih =>
      intro hj
      have hprev := le_trans (ih (by omega)) hcM
      have hnl : ¬ (k + 1) * L + (j + 1) < L := by
        have : L ≤ (k + 1) * L := Nat.le_mul_of_pos_left L (Nat.succ_pos k)
        omega
      have hsub : (k + 1) * L + (j + 1) - L = k * L + (j + 1) := by
        have : (k + 1) * L = k * L + L := by ring
        omega
      rw [hs, if_neg hnl, hsub]
      exact lowPass_abs_step a d ha0 ha1 hd0 _ _ _ hprev (le_peak y L k (j + 1) hj)
  apply peak_le y L (k + 1) _ (mul_nonneg hc0 hM)
  intro i hi
  have hge : L ≤ (k + 1) * L + i := by
    have : L ≤ (k + 1) * L := Nat.le_mul_of_pos_left L (Nat.succ_pos k)
    omega
  rw [hy _ hge, abs_mul, abs_of_pos hd0, mul_comm]
  exact hstep i hi

theorem peak_geometric {α : Type} [LinearOrderedField α] (c : α) (hc0 : 0 ≤ c) (M : Nat → α)
    (h : ∀ k, M (k + 1) ≤ c * M k) (k : Nat) : M k ≤ c ^ k * M 0 := by
  induction k with
  | zero => simp
  | succ k ih =>
    calc M (k + 1) ≤ c * M k := h k
      _ ≤ c * (c ^ k * M 0) := mul_le_mul_of_nonneg_left ih hc0
      _ = c ^ (k + 1) * M 0 := by ring

/-! ## Lemmas on `float64` samples -/

@[simp]
theorem Sample.zero_def : (0 : Sample) = Sample.fin 0 := rfl

@[simp]
theorem Sample.fin_add_fin (a b : Rat) :
    Sample.fin a + Sample.fin b = Sample.fin (a + b) := rfl

@[simp]
theorem Sample.fin_sub_fin (a b : Rat) :
    Sample.fin a - Sample.fin b = Sample.fin (a - b) := by
  show Sample.fin (a + -b) = Sample.fin (a - b)
  rw [sub_eq_add_neg]

@[simp]
theorem Sample.fin_mul_fin (a b : Rat) :
    Sample.fin a * Sample.fin b = Sample.fin (a * b) := rfl

@[simp]
theorem Sample.ofScientific_def (m : Nat) (s : Bool) (e : Nat) :
    (OfScientific.ofScientific m s e : Sample)
      = Sample.fin (OfScientific.ofScientific m s e) := rfl

theorem Sample.add_zero (x : Sample) : x + 0 = x := by
  cases x with
  | fin a => simp
  | inf s => rfl
  | nan => rfl

theorem Sample.zero_mul_fin (d : Rat) : (0 : Sample) * Sample.fin d = 0 := by
  simp

theorem Sample.fin_mul_zero (r : Rat) : Sample.fin r * 0 = 0 := by
  simp

/-- With `q = 0` the lower cutoff of `FilterFormant` (line 82) is `-Inf`. -/
theorem Sample.lowerCutoff_zero_q :
    (Sample.fin 440 - (Sample.fin 440 / Sample.fin 0)) / (0.772 : Sample)
      = Sample.inf true := by
  have h1 : Sample.fin 440 / Sample.fin 0 = Sample.inf false := by decide
  have h2 : Sample.fin 440 - Sample.inf false = Sample.inf true := rfl
  have h3 : ¬ ((0.772 : Rat) < 0) := by norm_num
  rw [h1, h2]
  show Sample.div _ (Sample.fin (0.772 : Rat)) = _
  simp only [Sample.div, h3, if_false]

/-- In the first period the loop hands the excitation through, when the zero
feedback times the decay is zero and adding zero changes no sample. -/
theorem first_period_of_zero {α : Type} [Add α] [Mul α] [Zero α] (rc : Filter α)
    (hrest : rc.step rc.init 0 = (rc.init, 0)) (e : Nat → Option α) (L : Nat) (hL : 1 ≤ L)
    (he : ∀ t, t < L → (e t).isSome) (decay : α) (hdecay : (0 : α) * decay = 0)
    (hadd : ∀ x : α, x + 0 = x) (t : Nat) (ht : t < L) :
    KarplusStrongOut rc e L decay t = e t := by
  rw [KarplusStrongOut_eq rc e L hL decay t]
  obtain ⟨st, tr, -, -, -, heq⟩ := loopRun_inv rc e L hL decay (t + 1)
  rw [heq t (Nat.lt_succ_self t)]
  have hu : ∀ i, i < t →
      (fun t => some (shiftSpec L (fun i => some (ksSample rc e L decay i)) t)) i
        = some (0 : α) := by
    intro i hi
    have : i < L := by omega
    simp [shiftSpec, this]
  rw [Filter.stateAt_rest rc _ hrest t hu]
  have h0 : shiftSpec L (fun i => some (ksSample rc e L decay i)) t = 0 := by
    simp [shiftSpec, ht]
  rw [h0, hrest]
  obtain ⟨x, hx⟩ := Option.isSome_iff_exists.mp (he t ht)
  simp only [hx, mix, hdecay, hadd]

/-! ## The delay line -/

/-- C1: for every delay length `L ≥ 1` and every input stream, output sample `t`
of `delay` is `0` for `t < L` and is input sample `t - L` for every `t ≥ L` for
which that input sample exists. -/
theorem delay_is_shift {α : Type} [Zero α] (L : Nat) (hL : 1 ≤ L) (input : Nat → Option α)
    (t : Nat) :
    (t < L → delayOut L input t = some 0) ∧
    (L ≤ t → ∀ x, input (t - L) = some x → delayOut L input t = some x) := by
  rw [delayOut_eq L hL input t]
  constructor
  · intro ht
    simp [shiftSpec, ht]
  · intro ht x hx
    simp [shiftSpec, Nat.not_lt.mpr ht, chanRecv, hx]

/-- A delay of 2 samples on the stream 5, 6, 7: sample 1 is silence, sample 3
is the input sample 1. -/
theorem delay_is_shift_witness :
    delayOut 2 (ofList [(5 : Int), 6, 7]) 1 = some 0 ∧
    delayOut 2 (ofList [(5 : Int), 6, 7]) 3 = some 6 :=
  ⟨(delay_is_shift 2 (by decide) (ofList [(5 : Int), 6, 7]) 1).1 (by decide),
   (delay_is_shift 2 (by decide) (ofList [(5 : Int), 6, 7]) 3).2 (by decide) 6 (by decide)⟩

/-- C6, as the claim has it, fails: on the one-sample input `5` a delay of
length 1 sends a sample of index `L + |S| = 2`, and its first three samples
are `0, 5, 0`. -/
theorem delay_output_not_finite :
    delayOut 1 (ofList [(5 : Int)]) (1 + [(5 : Int)].length) = some 0 ∧
    delayOutput 1 (ofList [(5 : Int)]) 3 = some [0, 5, 0] := by
  decide

/-- C6, amended: for every `L ≥ 1` and every finite input `S` the first
`L + |S|` output samples of `delay` are `L` zeros followed by `S`; the output
does not end there, every later sample is `0`. -/
theorem delay_finite_input {α : Type} [Zero α] (L : Nat) (hL : 1 ≤ L) (S : List α) :
    delayOutput L (ofList S) (L + S.length) = some (List.replicate L 0 ++ S) ∧
    ∀ t, L + S.length ≤ t → delayOut L (ofList S) t = some 0 := by
  constructor
  · rw [delayOutput_eq L hL]
    congr 1
    apply List.ext_getElem?
    intro i
    by_cases hi : i < L + S.length
    · rw [List.getElem?_map, List.getElem?_range hi]
      by_cases hiL : i < L
      · rw [List.getElem?_append_left (by simpa using hiL)]
        simp [shiftSpec, hiL, List.getElem?_replicate]
      · rw [List.getElem?_append_right (by simpa using Nat.le_of_not_lt hiL)]
        have h2 : i - L < S.length := by omega
        simp [shiftSpec, hiL, chanRecv, ofList, List.getElem?_eq_getElem h2]
    · rw [List.getElem?_eq_none (by simpa using Nat.le_of_not_lt hi),
        List.getElem?_eq_none (by simpa using Nat.le_of_not_lt hi)]
  · intro t ht
    rw [delayOut_eq L hL]
    have h1 : ¬ t < L := by omega
    have h2 : S.length ≤ t - L := by omega
    simp [shiftSpec, h1, chanRecv, ofList, List.getElem?_eq_none h2]

/-- A delay of 2 samples on the finite input 5, 6, 7. -/
theorem delay_finite_input_witness :
    delayOutput 2 (ofList [(5 : Int), 6, 7]) 5 = some [0, 0, 5, 6, 7] ∧
    delayOut 2 (ofList [(5 : Int), 6, 7]) 8 = some 0 :=
  ⟨(delay_finite_input 2 (by decide) [(5 : Int), 6, 7]).1,
   (delay_finite_input 2 (by decide) [(5 : Int), 6, 7]).2 8 (by decide)⟩

/-- C7, as the claim has it, fails: with `L = 2` the goroutine of `delay`
receives its first input sample right after its first send; one send, not two,
precedes the first receive. -/
theorem delay_recv_before_second_send :
    ∃ tr, delayTrace 2 (ofList [(5 : Int), 6]) 2 = some tr ∧
      tr = [Event.send 0, Event.recv 5, Event.send 0, Event.recv 6] ∧ leadingSends tr < 2 :=
  ⟨[Event.send 0, Event.recv 5, Event.send 0, Event.recv 6], by decide, rfl, by decide⟩

/-- C7, amended: for every `L ≥ 1` the goroutine of `delay` alternates sends
and receives: its `k`-th send comes right before its `k`-th receive, so exactly
one output sample is sent before the first input sample is accepted; the first
`L` samples sent are zeros whatever the input holds. -/
theorem delay_send_recv_alternate {α : Type} [Zero α] (L : Nat) (hL : 1 ≤ L)
    (input : Nat → Option α) (n : Nat) (hn : 1 ≤ n) :
    ∃ tr, delayTrace L input n = some tr ∧ tr.length = 2 * n ∧ leadingSends tr = 1 ∧
      ∀ k, k < n → ∃ v, tr[2 * k]? = some (Event.send v) ∧ (k < L → v = 0) ∧
        tr[2 * k + 1]? = some (Event.recv (chanRecv input k)) := by
  obtain ⟨s, tr, hrun, -, -, -, -, -, hlen, hev⟩ := delayLoop_inv L hL input n
  refine ⟨tr, by simp [delayTrace, hrun], hlen, ?_, ?_⟩
  · obtain ⟨h0, h1⟩ := hev 0 hn
    match tr, h0, h1 with
    | a :: b :: rest, h0, h1 =>
      simp only [Nat.mul_zero, List.getElem?_cons_zero, Option.some.injEq] at h0
      simp only [Nat.mul_zero, Nat.zero_add, List.getElem?_cons_succ, List.getElem?_cons_zero,
        Option.some.injEq] at h1
      subst h0 h1
      simp [leadingSends, List.takeWhile, Event.isSend]
    | [a], h0, h1 => simp at h1
    | [], h0, h1 => simp at h0
  · intro k hk
    obtain ⟨h0, h1⟩ := hev k hk
    refine ⟨_, h0, ?_, h1⟩
    intro hkL
    simp [shiftSpec, hkL]

/-- The first three loop iterations of a delay of 2 samples on the stream 5, 6, 7. -/
theorem delay_send_recv_alternate_witness :
    ∃ tr, delayTrace 2 (ofList [(5 : Int), 6, 7]) 3 = some tr ∧ tr.length = 2 * 3 ∧
      leadingSends tr = 1 ∧
      ∀ k, k < 3 → ∃ v, tr[2 * k]? = some (Event.send v) ∧ (k < 2 → v = 0) ∧
        tr[2 * k + 1]? = some (Event.recv (chanRecv (ofList [(5 : Int), 6, 7]) k)) :=
  delay_send_recv_alternate 2 (by decide) (ofList [(5 : Int), 6, 7]) 3 (by decide)

theorem delayLoop_zero_length {α : Type} [Zero α] (x : Nat → Option α) (n : Nat) :
    delayLoop 0 x (n + 1) = none := by
  induction n with
  | zero => simp [delayLoop, delayInit, delaySend]
  | succ n ih => rw [delayLoop, ih]

/-! ## Construction -/

/-- C4, as the claim has it, fails: `delay` with length 0 is not rejected, its
goroutine is started, in `KarplusStrong` after `ctx.Add` and `ctx.Fork2`, and
the fault comes in the first loop iteration of that goroutine.  (Two schedules
are shown: the process ends right after the goroutine was started, or after
all seven stages were started.) -/
theorem delay_zero_not_rejected :
    delay 0 0 0 (callerNet Int)
      = (1, { chans := 2, started := [Stage.delay 0 1 0], panicIn := some 0,
              ended := false }) ∧
    (KarplusStrong 0 0 0 (1000 : Int) 1 (callerNet Int)).2.started
      = [Stage.add 0 1 2, Stage.fork2 2 3 4, Stage.delay 4 5 0] ∧
    (KarplusStrong 7 0 0 (1000 : Int) 1 (callerNet Int)).2.started
      = [Stage.add 0 1 2, Stage.fork2 2 3 4, Stage.delay 4 5 0, Stage.rc 5 6 Pass.LowPass 1000,
         Stage.const 7 1, Stage.mul 6 7 8, Stage.pipe 8 1] ∧
    delayLoop 0 (ofList [(5 : Int)]) 0 = some (delayInit 0, []) ∧
    delayLoop 0 (ofList [(5 : Int)]) 1 = none := by
  decide

/-- C4, amended: `delay` with length 0 is not rejected at construction: it makes
its output channel and starts its goroutine, in `KarplusStrong` after `ctx.Add`
and `ctx.Fork2` were started; the failure is the fault of that goroutine in its
first loop iteration, on `buffer[pos]`, before any sample is sent or received.
The fault ends the process at a point the scheduler chooses: whether `delay`
returns and which later stages are started is not determined. -/
theorem delay_zero_faults_in_goroutine {α : Type} [Zero α] (sched input : Nat)
    (cutoff decay : α) (net : Net α) (hp : net.panicIn = none) (he : net.ended = false)
    (x : Nat → Option α) (n : Nat) :
    (delay sched input 0 net).2.started = net.started ++ [Stage.delay input net.chans 0] ∧
    (delay sched input 0 net).2.panicIn = some sched ∧
    (∃ rest, (KarplusStrong sched input 0 cutoff decay net).2.started
      = net.started ++ [Stage.add input net.chans (net.chans + 1),
          Stage.fork2 (net.chans + 1) (net.chans + 2) (net.chans + 3),
          Stage.delay (net.chans + 3) (net.chans + 4) 0] ++ rest) ∧
    delayLoop 0 x 0 = some (delayInit 0, []) ∧
    delayLoop 0 x (n + 1) = none := by
  obtain ⟨chans, started, panicIn, ended⟩ := net
  simp only at hp he
  subst hp he
  refine ⟨?_, ?_, ?_, rfl, delayLoop_zero_length x n⟩
  · simp [delay, makeChan, goStage, schedule, delaySend, delayInit]
  · simp [delay, makeChan, goStage, schedule, delaySend, delayInit]
  · rcases sched with _ | _ | _ | _ | _ | _ | _ | sched <;>
      simp [KarplusStrong, delay, newAdd, newFork2, newRC, newConst, newMul, makeChan, goStage,
        schedule, delaySend, delayInit]

/-- A delay line of length 0 built by a caller that has started nothing, the
process ending two statements after the goroutine was started. -/
theorem delay_zero_faults_in_goroutine_witness :
    (delay 2 0 0 (callerNet Int)).2.started = [Stage.delay 0 1 0] ∧
    (delay 2 0 0 (callerNet Int)).2.panicIn = some 2 ∧
    (∃ rest, (KarplusStrong 2 0 0 (1000 : Int) 1 (callerNet Int)).2.started
      = [Stage.add 0 1 2, Stage.fork2 2 3 4, Stage.delay 4 5 0] ++ rest) ∧
    delayLoop 0 (ofList [(5 : Int)]) 0 = some (delayInit 0, []) ∧
    delayLoop 0 (ofList [(5 : Int)]) (3 + 1) = none :=
  delay_zero_faults_in_goroutine 2 0 (1000 : Int) 1 (callerNet Int) rfl rfl
    (ofList [(5 : Int)]) 3

/-- C5, as the claim has it, fails: with `decay = -1` `KarplusStrong` returns
its output channel with all seven stages of the loop started. -/
theorem KarplusStrong_negative_decay_runs :
    KarplusStrong 0 0 1 (1000 : Int) (-1) (callerNet Int)
      = (3, { chans := 9,
              started := [Stage.add 0 1 2, Stage.fork2 2 3 4, Stage.delay 4 5 1,
                Stage.rc 5 6 Pass.LowPass 1000, Stage.const 7 (-1), Stage.mul 6 7 8,
                Stage.pipe 8 1],
              panicIn := none, ended := false }) := by
  decide

/-- C5, amended: `KarplusStrong` does not look at `decay`: for every decay, zero
and negative ones included, and every delay length `≥ 1`, it makes the same
eight channels, starts the same seven stages and returns its output channel. -/
theorem KarplusStrong_any_decay_constructed {α : Type} [Zero α] (sched input : Nat)
    (delaySamples : Nat) (hL : 1 ≤ delaySamples) (cutoff decay : α) (net : Net α)
    (hp : net.panicIn = none) (he : net.ended = false) :
    KarplusStrong sched input delaySamples cutoff decay net
      = (net.chans + 2,
         { chans := net.chans + 8,
           started := net.started ++ [Stage.add input net.chans (net.chans + 1),
             Stage.fork2 (net.chans + 1) (net.chans + 2) (net.chans + 3),
             Stage.delay (net.chans + 3) (net.chans + 4) delaySamples,
             Stage.rc (net.chans + 4) (net.chans + 5) Pass.LowPass cutoff,
             Stage.const (net.chans + 6) decay,
             Stage.mul (net.chans + 5) (net.chans + 6) (net.chans + 7),
             Stage.pipe (net.chans + 7) net.chans],
           panicIn := none, ended := false }) := by
  obtain ⟨chans, started, panicIn, ended⟩ := net
  simp only at hp he
  subst hp he
  obtain ⟨k, rfl⟩ : ∃ k, delaySamples = k + 1 := ⟨delaySamples - 1, by omega⟩
  simp [KarplusStrong, delay, newAdd, newFork2, newRC, newConst, newMul, makeChan, goStage,
    schedule, delaySend, delayInit, List.replicate_succ]

/-- `KarplusStrong` with `decay = -1` on a delay line of 2 samples. -/
theorem KarplusStrong_any_decay_constructed_witness :
    KarplusStrong 0 0 2 (1000 : Int) (-1) (callerNet Int)
      = (3, { chans := 9,
              started := [Stage.add 0 1 2, Stage.fork2 2 3 4, Stage.delay 4 5 2,
                Stage.rc 5 6 Pass.LowPass 1000, Stage.const 7 (-1), Stage.mul 6 7 8,
                Stage.pipe 8 1],
              panicIn := none, ended := false }) :=
  KarplusStrong_any_decay_constructed 0 0 2 (by decide) (1000 : Int) (-1) (callerNet Int)
    rfl rfl

/-! ## The feedback loop -/

/-- C2: for every excitation `e`, delay length `L ≥ 1`, damping filter and
decay, the output `y` of `KarplusStrong` holds a sample at every index `t`, and
`y[t] = e'[t] + decay * LP(D_L(y))[t]`, with `D_L` the stream function of
`delay`, `LP` that of the damping filter and `e'[t]` the excitation sample while
the excitation lasts and `0` after it has ended. -/
theorem KarplusStrong_feedback_equation {α : Type} [CommSemiring α] (rc : Filter α)
    (e : Nat → Option α) (L : Nat) (hL : 1 ≤ L) (decay : α) :
    ∃ y : Nat → α,
      (∀ t, KarplusStrongOut rc e L decay t = some (y t)) ∧
      ∀ t, ∃ f, rc.run (delayOut L (fun i => some (y i))) t = some f ∧
        y t = (e t).getD 0 + decay * f := by
  refine ⟨ksSample rc e L decay, KarplusStrongOut_eq rc e L hL decay, ?_⟩
  intro t
  obtain ⟨st, tr, -, -, -, heq⟩ := loopRun_inv rc e L hL decay (t + 1)
  have hD : delayOut L (fun i => some (ksSample rc e L decay i))
      = fun t => some (shiftSpec L (fun i => some (ksSample rc e L decay i)) t) :=
    funext fun t => delayOut_eq L hL _ t
  refine ⟨_, by rw [hD]; rfl, ?_⟩
  rw [heq t (Nat.lt_succ_self t)]
  cases e t with
  | none => simp [mix, mul_comm]
  | some x => simp [mix, mul_comm]

/-- The loop of length 2 on the excitation 1, 2 with the transparent filter
and decay 3. -/
theorem KarplusStrong_feedback_equation_witness :
    (∃ y : Nat → Int,
      (∀ t, KarplusStrongOut (lowPass 1) (ofList [1, 2]) 2 3 t = some (y t)) ∧
      ∀ t, ∃ f, (lowPass 1).run (delayOut 2 (fun i => some (y i))) t = some f ∧
        y t = ((ofList [1, 2]) t).getD 0 + 3 * f) ∧
    KarplusStrongOutput (lowPass (1 : Int)) (ofList [1, 2]) 2 3 6 = some [1, 2, 3, 6, 9, 18] :=
  ⟨KarplusStrong_feedback_equation (lowPass (1 : Int)) (ofList [1, 2]) 2 (by decide) 3,
    by decide⟩

/-- C9, as the claim has it, fails: with `decay = +Inf` the zero feedback of
the first period times the decay is NaN, and the first output sample of the
loop of length 1 on the excitation `1` is NaN, not `1`; the damping filter is a
first-order low-pass at rest. -/
theorem KarplusStrong_infinite_decay :
    (lowPass (Sample.fin (1 / 2))).step (lowPass (Sample.fin (1 / 2))).init 0
      = ((lowPass (Sample.fin (1 / 2))).init, 0) ∧
    ofList [Sample.fin 1] 0 = some (Sample.fin 1) ∧
    KarplusStrongOut (lowPass (Sample.fin (1 / 2))) (ofList [Sample.fin 1]) 1
      (Sample.inf false) 0 = some Sample.nan := by
  refine ⟨?_, rfl, ?_⟩
  · simp [lowPass]
  · simp [KarplusStrongOut, KarplusStrongOutput, loopRun, loopStep, delaySend, delayInit,
      lowPass, mix, ofList]
    rfl

/-- C9, amended: for every `L ≥ 1`, every finite decay (not `±Inf`, not NaN),
every damping filter that is at rest when it starts and every excitation of at
least `L` samples, the first `L` output samples of `KarplusStrong` are the first
`L` samples of the excitation. -/
theorem KarplusStrong_first_period (rc : Filter Sample)
    (hrest : rc.step rc.init 0 = (rc.init, 0)) (e : Nat → Option Sample) (L : Nat)
    (hL : 1 ≤ L) (he : ∀ t, t < L → (e t).isSome) (d : Rat) (t : Nat) (ht : t < L) :
    KarplusStrongOut rc e L (Sample.fin d) t = e t :=
  first_period_of_zero rc hrest e L hL he (Sample.fin d) (Sample.zero_mul_fin d)
    Sample.add_zero t ht

/-- The first period of the loop of length 2 on the excitation 1, 2, 3 with a
first-order low-pass and decay `1/2`. -/
theorem KarplusStrong_first_period_witness :
    KarplusStrongOut (lowPass (Sample.fin (1 / 2)))
        (ofList [Sample.fin 1, Sample.fin 2, Sample.fin 3]) 2 (Sample.fin (1 / 2)) 1
      = ofList [Sample.fin 1, Sample.fin 2, Sample.fin 3] 1 :=
  KarplusStrong_first_period (lowPass (Sample.fin (1 / 2))) (by simp [lowPass])
    (ofList [Sample.fin 1, Sample.fin 2, Sample.fin 3]) 2 (by decide) (by decide) (1 / 2) 1
    (by decide)

/-- C8: over the reals, with the damping filter the first-order low-pass
`y[n] = y[n-1] + a * (x[n] - y[n-1])`, `0 < a ≤ 1`, a decay `0 < d < 1`, a delay
length `L ≥ 1` and an excitation of `L` samples, the output of `KarplusStrong`
holds a sample at every index, its peak `M_k` over period `k` satisfies
`M_(k+1) ≤ M_k` for every `k`, and `M_k` tends to `0`. -/
theorem KarplusStrong_peak_decays (a d : ℝ) (ha0 : 0 < a) (ha1 : a ≤ 1) (hd0 : 0 < d)
    (hd1 : d < 1) (L : Nat) (hL : 1 ≤ L) (E : List ℝ) (hE : E.length = L) :
    (∀ t, KarplusStrongOut (lowPass a) (ofList E) L d t
      = some (ksSample (lowPass a) (ofList E) L d t)) ∧
    (∀ k, peak (ksSample (lowPass a) (ofList E) L d) L (k + 1)
      ≤ peak (ksSample (lowPass a) (ofList E) L d) L k) ∧
    Filter.Tendsto (fun k => peak (ksSample (lowPass a) (ofList E) L d) L k) Filter.atTop
      (nhds 0) := by
  obtain ⟨s, hs0, hs, hmix⟩ := lowPass_loop a d (ofList E) L hL
  have hy : ∀ t, L ≤ t → ksSample (lowPass a) (ofList E) L d t = s (t + 1) * d := by
    intro t ht
    have hnone : ofList E t = none := by
      simp [ofList, List.getElem?_eq_none (by omega : E.length ≤ t)]
    rw [hmix t, hnone]
    rfl
  have hcon := peak_contract a d ha0 ha1 hd0 hd1 L hL _ s hs0 hs hy
  have hc1 : 1 - a + a * d < 1 := by nlinarith
  have hc0 : 0 ≤ 1 - a + a * d := by nlinarith
  refine ⟨KarplusStrongOut_eq _ _ L hL d, ?_, ?_⟩
  · intro k
    have hM := peak_nonneg (ksSample (lowPass a) (ofList E) L d) L k
    have := hcon k
    nlinarith
  · have hgeo := peak_geometric _ hc0 _ hcon
    have hlim : Filter.Tendsto
        (fun k => (1 - a + a * d) ^ k * peak (ksSample (lowPass a) (ofList E) L d) L 0)
        Filter.atTop (nhds 0) := by
      have := (tendsto_pow_atTop_nhds_zero_of_lt_one hc0 hc1).mul_const
        (peak (ksSample (lowPass a) (ofList E) L d) L 0)
      simpa using this
    exact squeeze_zero (fun k => peak_nonneg _ L k) hgeo hlim

/-- The loop of length 2 on the excitation 1, -2 with `a = 1/2` and decay `1/2`. -/
theorem KarplusStrong_peak_decays_witness :
    (∀ t, KarplusStrongOut (lowPass (1 / 2 : ℝ)) (ofList [1, -2]) 2 (1 / 2) t
      = some (ksSample (lowPass (1 / 2 : ℝ)) (ofList [1, -2]) 2 (1 / 2) t)) ∧
    (∀ k, peak (ksSample (lowPass (1 / 2 : ℝ)) (ofList [1, -2]) 2 (1 / 2)) 2 (k + 1)
      ≤ peak (ksSample (lowPass (1 / 2 : ℝ)) (ofList [1, -2]) 2 (1 / 2)) 2 k) ∧
    Filter.Tendsto (fun k => peak (ksSample (lowPass (1 / 2 : ℝ)) (ofList [1, -2]) 2 (1 / 2)) 2 k)
      Filter.atTop (nhds 0) :=
  KarplusStrong_peak_decays (1 / 2) (1 / 2) (by norm_num) (by norm_num) (by norm_num)
    (by norm_num) 2 (by decide) [1, -2] rfl

/-! ## The formant shaper -/

/-- C10, as the claim has it, fails: on an input sample `+Inf` the band-limited
copy is `+Inf`, its product with `gain - 1 = 0` is NaN, and the output sample
of `FilterFormant` with gain 1 is NaN, not the input sample; the two band
filters are first-order low-passes. -/
theorem FilterFormant_infinite_sample :
    ofList [Sample.inf false] 0 = some (Sample.inf false) ∧
    formantBand (fun _ _ => lowPass (Sample.fin (1 / 2))) (ofList [Sample.inf false])
      (Sample.fin 440) (Sample.fin 2) 0 = some (Sample.inf false) ∧
    FilterFormant (fun _ _ => lowPass (Sample.fin (1 / 2))) false (ofList [Sample.inf false])
      (Sample.fin 440) (Sample.fin 2) (Sample.fin 1) 0 = some Sample.nan := by
  have h3 : ¬ ((1 / 2 : Rat) < 0) := by norm_num
  have h2 : ¬ ((1 / 2 : Rat) = 0) := by norm_num
  have hs : Sample.inf false - (0 : Sample) = Sample.inf false := rfl
  have hm : Sample.fin (1 / 2) * Sample.inf false = Sample.inf false := by
    show Sample.mul _ _ = _
    simp only [Sample.mul, h2, h3, if_false]
  have ha : (0 : Sample) + Sample.inf false = Sample.inf false := rfl
  have hg : Sample.fin 1 - (1.0 : Sample) = 0 := by
    simp
    norm_num
  have hz : Sample.inf false * (0 : Sample) = Sample.nan := by
    show Sample.mul _ _ = _
    simp only [Sample.mul, if_true]
  have hn : Sample.inf false + Sample.nan = Sample.nan := rfl
  have hband : formantBand (fun _ _ => lowPass (Sample.fin (1 / 2)))
      (ofList [Sample.inf false]) (Sample.fin 440) (Sample.fin 2) 0
        = some (Sample.inf false) := by
    simp only [formantBand, ctxFork2, Filter.run, Filter.stateAt, lowPass, ofList,
      List.getElem?_cons_zero, Option.map_some', hs, hm, ha]
  refine ⟨rfl, hband, ?_⟩
  simp only [formantBand, ctxFork2] at hband
  simp only [FilterFormant, ctxFork2, ctxMul, ctxConst, ctxAdd, addSample, hband, hg, hz, hn,
    ofList, List.getElem?_cons_zero]

/-- C10, amended: for every input stream, centre frequency and Q,
`FilterFormant` with gain 1 yields the input sample at every index where the
band-limited copy holds a finite sample (not `±Inf`, not NaN), whichever way
`ctx.Mul` ends: the band is scaled by `gain - 1 = 0` and added back. -/
theorem FilterFormant_unit_gain (Chebyshev : Pass → Sample → Filter Sample)
    (untilAll : Bool) (input : Nat → Option Sample) (centre q : Sample) (t : Nat)
    (x : Sample) (r : Rat) (hx : input t = some x)
    (hb : formantBand Chebyshev input centre q t = some (Sample.fin r)) :
    FilterFormant Chebyshev untilAll input centre q (Sample.fin 1) t = some x := by
  have hg : Sample.fin 1 - (1.0 : Sample) = 0 := by
    simp
    norm_num
  simp only [formantBand, ctxFork2] at hb
  simp only [FilterFormant, ctxFork2, ctxAdd, ctxMul, ctxConst, hb, hx, hg, Sample.fin_mul_zero,
    addSample, Sample.add_zero]

/-- The formant shaper with gain 1 on the stream 1, 2, with first-order
low-passes standing for the two band filters. -/
theorem FilterFormant_unit_gain_witness :
    FilterFormant (fun _ _ => lowPass (Sample.fin (1 / 2))) true
      (ofList [Sample.fin 1, Sample.fin 2]) (Sample.fin 440) (Sample.fin 2) (Sample.fin 1) 0
      = some (Sample.fin 1) :=
  FilterFormant_unit_gain (fun _ _ => lowPass (Sample.fin (1 / 2))) true
    (ofList [Sample.fin 1, Sample.fin 2]) (Sample.fin 440) (Sample.fin 2) 0 (Sample.fin 1)
    (1 / 4) rfl
    (by simp [formantBand, ctxFork2, Filter.run, Filter.stateAt, lowPass, ofList]; norm_num)

end KarplusStrongDemo
